import Mathlib

/-!
Verification of the Yaict dataset/image management core
(`src/yaict/dataset_manager.py`) against its specification.

The filesystem is modelled shallowly: a path is a list of structured file
names (stem plus extension, mirroring `pathlib.Path.stem` / `.suffix`), and
the filesystem state is an association list of file paths to string contents
together with a list of directory paths.  Python exceptions are modelled with
`Except PyErr`; a mutating operation returns the filesystem and registry as
mutated up to the point of a raise, mirroring Python exception semantics.
PIL thumbnail generation is modelled by an oracle `ts : String → Option String`
mapping image bytes to thumbnail bytes (`none` = decode failure), since image
decoding itself is outside the scope of the spec.  `uuid.uuid4` is modelled by
passing the generated identifier (or a generator `Nat → String`) as an
explicit parameter.
-/

/-- One path segment, split as `pathlib` splits a file name: `stem` is the
name without the final extension, `ext` the final extension including the
leading dot (empty for no extension, as for directory names). -/
structure FileName where
  stem : String
  ext : String
deriving DecidableEq, Repr

/-- A filesystem path: the list of its segments. -/
abbrev FsPath := List FileName

namespace FsPath

/-- `pathlib.Path.stem` of the path's last segment. -/
def stem (p : FsPath) : String :=
  match p.getLast? with
  | some n => n.stem
  | none => ""

/-- `pathlib.Path.suffix` of the path's last segment. -/
def suffix (p : FsPath) : String :=
  match p.getLast? with
  | some n => n.ext
  | none => ""

/-- `pathlib.Path.name` of the path's last segment, as a structured name. -/
def lastName (p : FsPath) : FileName :=
  (p.getLast?).getD ⟨"", ""⟩

/-- `pathlib.Path.parent`. -/
def parent (p : FsPath) : FsPath := p.dropLast

end FsPath

/-- The Python exception kinds raised by the dataset manager code. -/
inductive PyErr where
  | fileNotFoundError
  | valueError
  | isADirectoryError
  | notADirectoryError
  | fileExistsError
  | pilError
deriving DecidableEq, Repr

instance {ε α : Type _} [DecidableEq ε] [DecidableEq α] : DecidableEq (Except ε α) :=
  fun x y =>
    match x, y with
    | .ok a, .ok b =>
      if h : a = b then isTrue (by rw [h]) else isFalse (by intro he; cases he; exact h rfl)
    | .error a, .error b =>
      if h : a = b then isTrue (by rw [h]) else isFalse (by intro he; cases he; exact h rfl)
    | .ok _, .error _ => isFalse (by intro he; cases he)
    | .error _, .ok _ => isFalse (by intro he; cases he)

/-- Filesystem state: files with their byte contents, and directories. -/
structure FS where
  files : List (FsPath × String)
  dirs : List FsPath
deriving DecidableEq, Repr

namespace FS

/-- The content stored at a file path, if any. -/
def fileContent (fs : FS) (p : FsPath) : Option String :=
  (fs.files.find? (fun e => decide (e.1 = p))).map (fun e => e.2)

/-- `Path.is_file()`. -/
def isFile (fs : FS) (p : FsPath) : Bool :=
  (fs.fileContent p).isSome

/-- `Path.is_dir()`. -/
def isDir (fs : FS) (p : FsPath) : Bool :=
  decide (p ∈ fs.dirs)

/-- `Path.exists()`: true for files and directories alike. -/
def pathExists (fs : FS) (p : FsPath) : Bool :=
  fs.isFile p || fs.isDir p

/-- Overwrite (or create) the file at `p` with content `c`. -/
def writeFile (fs : FS) (p : FsPath) (c : String) : FS :=
  { fs with files := (p, c) :: fs.files.filter (fun e => decide (e.1 ≠ p)) }

/-- The entries of directory `p`: every recorded directory or file lying
directly below `p`.  The order (directories first, then files, each in
recording order) stands in for the unspecified OS directory-listing order. -/
def childrenOf (fs : FS) (p : FsPath) : List FsPath :=
  (fs.dirs ++ fs.files.map (fun e => e.1)).filter
    (fun q => decide (q.length = p.length + 1) && decide (q.dropLast = p))

/-- `Path.iterdir()`: lists the entries of a directory, raising
`NotADirectoryError` on a file and `FileNotFoundError` on a missing path. -/
def iterdir (fs : FS) (p : FsPath) : Except PyErr (List FsPath) :=
  if fs.isDir p then .ok (fs.childrenOf p)
  else if fs.isFile p then .error .notADirectoryError
  else .error .fileNotFoundError

/-- `Path.mkdir(parents=True, exist_ok=True)`: records the directory and any
missing ancestors.  Raises `FileExistsError` when a regular file already sits
at the target path; a regular file on the strict ancestor chain is not
modelled (no claim exercises that state). -/
def mkdir_p (fs : FS) (p : FsPath) : Except PyErr FS :=
  if fs.isDir p then .ok fs
  else if fs.isFile p then .error .fileExistsError
  else .ok { fs with
    dirs := fs.dirs ++ ((List.range p.length).map (fun i => p.take (i + 1))).filter
      (fun q => decide (q ∉ fs.dirs)) }

/-- Opening a path for writing (`open(path, "w")` or a PIL `save`): requires
the parent directory to exist, then overwrites the file. -/
def openWrite (fs : FS) (p : FsPath) (c : String) : Except PyErr FS :=
  if fs.isDir p.parent then .ok (fs.writeFile p c)
  else .error .fileNotFoundError

/-- `shutil.copy(src, dst)`: reads the source file's bytes and writes them to
`dst`; raises `IsADirectoryError` when the source is a directory and
`FileNotFoundError` when it is absent. -/
def copyFile (fs : FS) (src dst : FsPath) : Except PyErr FS :=
  match fs.fileContent src with
  | some c => fs.openWrite dst c
  | none =>
    if fs.isDir src then .error .isADirectoryError
    else .error .fileNotFoundError

end FS

/-- Python `str.lower()`, restricted to per-character lowercasing (the
extensions the code compares are ASCII). Defined structurally over the
character list so the kernel can evaluate it. -/
def strLower (s : String) : String := ⟨s.data.map Char.toLower⟩

/-- `has_extension` (dataset_manager.py line 35): case-insensitive membership
of the path's final suffix in the extension list. -/
def has_extension (file : FsPath) (extensions : List String) : Bool :=
  decide (strLower (FsPath.suffix file) ∈ extensions.map (fun e => strLower e))

/-- `find_file_with_extensions` (line 38): probes `folder/<name><ext>` for
each extension in order and returns the first existing path. -/
def find_file_with_extensions (fs : FS) (folder : FsPath) (name : String)
    (extensions : List String) : Option FsPath :=
  match extensions with
  | [] => none
  | ext :: rest =>
    let file_path := folder ++ [⟨name, ext⟩]
    if fs.pathExists file_path then some file_path
    else find_file_with_extensions fs folder name rest

/-- `ImageInfo` (line 9), fields in the constructor's order. -/
structure ImageInfo where
  image_id : String
  group_name : FileName
  image_extension : String
  thumbnail_extension : String
  caption_extension : Option String
deriving DecidableEq, Repr

namespace ImageInfo

/-- `ImageInfo.get_image_path` (line 17). -/
def get_image_path (info : ImageInfo) (image_dir : FsPath) : FsPath :=
  image_dir ++ [info.group_name, ⟨info.image_id, info.image_extension⟩]

/-- `ImageInfo.get_caption_path` (line 20): `None` while no caption is set. -/
def get_caption_path (info : ImageInfo) (image_dir : FsPath) : Option FsPath :=
  match info.caption_extension with
  | some ce => some (image_dir ++ [info.group_name, ⟨info.image_id, ce⟩])
  | none => none

/-- `ImageInfo.get_relative_thumbnail_path` (line 26). -/
def get_relative_thumbnail_path (info : ImageInfo) (thumbnail_dir : FsPath) : FsPath :=
  thumbnail_dir ++ [⟨info.image_id, info.thumbnail_extension⟩]

/-- `ImageInfo.get_containing_folder` (line 29). -/
def get_containing_folder (info : ImageInfo) (image_dir : FsPath) : FsPath :=
  image_dir ++ [info.group_name]

end ImageInfo

/-- The in-memory registry `id_to_info`, as an insertion-ordered association
list mirroring a Python `dict` (updates keep position, new keys append). -/
abbrev Registry := List (String × ImageInfo)

namespace Registry

/-- `dict.get(key, None)`. -/
def get? (reg : Registry) (k : String) : Option ImageInfo :=
  (reg.find? (fun e => decide (e.1 = k))).map (fun e => e.2)

/-- `dict[key] = value`: replace in place when present, else append. -/
def insert (reg : Registry) (k : String) (v : ImageInfo) : Registry :=
  if (reg.find? (fun e => decide (e.1 = k))).isSome then
    reg.map (fun e => if e.1 = k then (k, v) else e)
  else reg ++ [(k, v)]

/-- `list(dict.keys())`, in insertion order. -/
def keys (reg : Registry) : List String := reg.map (fun e => e.1)

end Registry

/-- `self.image_dir = self.base_dir / 'images'` (line 52). -/
def imageDir (base_dir : FsPath) : FsPath := base_dir ++ [⟨"images", ""⟩]

/-- `self.thumbnail_dir = self.base_dir / 'thumbnails'` (line 53). -/
def thumbnailDir (base_dir : FsPath) : FsPath := base_dir ++ [⟨"thumbnails", ""⟩]

/-- The recognized image extensions used by the startup scan (line 75) and as
the default ingestion filter (line 83). -/
def imageExtensions : List String := [".jpg", ".jpeg", ".png"]

/-- The recognized caption extensions, in preference order (lines 78, 144). -/
def captionExtensions : List String := [".txt", ".caption"]

/-- Inner body of `load_existing_images` (lines 74-80): fold one file of a
group folder into the registry. -/
def process_image_file (fs : FS) (folder : FsPath) (reg : Registry)
    (file : FsPath) : Registry :=
  if fs.isFile file && has_extension file imageExtensions then
    let image_id := FsPath.stem file
    let caption_file := find_file_with_extensions fs folder image_id captionExtensions
    let caption_ext := caption_file.map FsPath.suffix
    reg.insert image_id
      ⟨image_id, FsPath.lastName folder, FsPath.suffix file, ".jpg", caption_ext⟩
  else reg

/-- Outer body of `load_existing_images` (lines 72-80): fold one entry of the
image directory into the registry, skipping non-directories. -/
def process_group_folder (fs : FS) (reg : Registry) (folder : FsPath) : Registry :=
  if fs.isDir folder then
    (fs.childrenOf folder).foldl (process_image_file fs folder) reg
  else reg

/-- `DatasetManager.load_existing_images` (line 71): scans the image
directory and rebuilds the registry; `iterdir` raises when it is missing. -/
def load_existing_images (fs : FS) (image_dir : FsPath) : Except PyErr Registry :=
  match fs.iterdir image_dir with
  | .error e => .error e
  | .ok entries => .ok (entries.foldl (process_group_folder fs) [])

/-- `DatasetManager.setup_folders` (line 61). -/
def setup_folders (fs : FS) (base_dir : FsPath) : Except PyErr FS :=
  match fs.mkdir_p base_dir with
  | .error e => .error e
  | .ok fs1 =>
  match fs1.mkdir_p (imageDir base_dir) with
  | .error e => .error e
  | .ok fs2 => fs2.mkdir_p (thumbnailDir base_dir)

/-- `DatasetManager.__init__` (line 46): fresh setup when the base directory
is absent, otherwise a startup scan of `images/` with no folder creation.
Returns the filesystem as mutated up to a raise, plus the registry. -/
def dataset_manager_init (fs : FS) (base_dir : FsPath) :
    FS × Except PyErr Registry :=
  if fs.pathExists base_dir then
    (fs, load_existing_images fs (imageDir base_dir))
  else
    match setup_folders fs base_dir with
    | .error e => (fs, .error e)
    | .ok fs1 => (fs1, .ok [])

/-- `DatasetManager.add_image` (line 113).  `image_id` stands for the fresh
`uuid.uuid4()` value and `ts` for PIL decode-and-thumbnail. -/
def add_image (fs : FS) (reg : Registry) (base_dir : FsPath)
    (image_path : FsPath) (image_id : String) (match_caption : Bool)
    (ts : String → Option String) : FS × Registry × Except PyErr String :=
  if !(fs.pathExists image_path) then (fs, reg, .error .fileNotFoundError) else
  let source_image_folder := image_path.parent
  let source_image_file_name := FsPath.stem image_path
  let source_image_extension := FsPath.suffix image_path
  let destination_folder := imageDir base_dir ++ [⟨source_image_file_name, ""⟩]
  match fs.mkdir_p destination_folder with
  | .error e => (fs, reg, .error e)
  | .ok fs1 =>
  let destination_image_path := destination_folder ++ [⟨image_id, source_image_extension⟩]
  match fs1.copyFile image_path destination_image_path with
  | .error e => (fs1, reg, .error e)
  | .ok fs2 =>
  let capRes : Except PyErr (FS × Option String) :=
    if match_caption then
      match find_file_with_extensions fs2 source_image_folder source_image_file_name captionExtensions with
      | some caption_file_path =>
        match fs2.copyFile caption_file_path
            (destination_folder ++ [⟨image_id, FsPath.suffix caption_file_path⟩]) with
        | .error e => .error e
        | .ok fsx => .ok (fsx, some (FsPath.suffix caption_file_path))
      | none => .ok (fs2, none)
    else .ok (fs2, none)
  match capRes with
  | .error e => (fs2, reg, .error e)
  | .ok (fs3, caption_ext) =>
  match fs3.fileContent destination_image_path with
  | none => (fs3, reg, .error .fileNotFoundError)
  | some c =>
  match ts c with
  | none => (fs3, reg, .error .pilError)
  | some tc =>
  match fs3.openWrite (thumbnailDir base_dir ++ [⟨image_id, ".jpg"⟩]) tc with
  | .error e => (fs3, reg, .error e)
  | .ok fs4 =>
    (fs4,
     reg.insert image_id
       ⟨image_id, ⟨source_image_file_name, ""⟩, source_image_extension, ".jpg", caption_ext⟩,
     .ok image_id)

/-- Loop body of `add_images_from_folder` (lines 96-101), over the listed
entries, consuming one generated identifier per extension match. -/
def add_from_entries (base_dir : FsPath) (gen : Nat → String)
    (ts : String → Option String) (extensions : List String)
    (include_captions : Bool) :
    List FsPath → Nat → FS → Registry → FS × Registry × Except PyErr (List String)
  | [], _, fs, reg => (fs, reg, .ok [])
  | file :: rest, n, fs, reg =>
    if has_extension file extensions then
      match add_image fs reg base_dir file (gen n) include_captions ts with
      | (fs1, reg1, .ok image_id) =>
        match add_from_entries base_dir gen ts extensions include_captions rest (n + 1) fs1 reg1 with
        | (fs2, reg2, .ok ids) => (fs2, reg2, .ok (image_id :: ids))
        | (fs2, reg2, .error e) => (fs2, reg2, .error e)
      | (fs1, reg1, .error e) => (fs1, reg1, .error e)
    else add_from_entries base_dir gen ts extensions include_captions rest n fs reg

/-- `DatasetManager.add_images_from_folder` (line 83). -/
def add_images_from_folder (fs : FS) (reg : Registry) (base_dir folder : FsPath)
    (gen : Nat → String) (ts : String → Option String)
    (extensions : List String) (include_captions : Bool) :
    FS × Registry × Except PyErr (List String) :=
  match fs.iterdir folder with
  | .error e => (fs, reg, .error e)
  | .ok entries => add_from_entries base_dir gen ts extensions include_captions entries 0 fs reg

/-- `DatasetManager.get_info_by_id` (line 213). -/
def get_info_by_id (reg : Registry) (image_id : String) : Option ImageInfo :=
  reg.get? image_id

/-- `DatasetManager.set_caption` (line 165). -/
def set_caption (fs : FS) (reg : Registry) (base_dir : FsPath)
    (image_id : String) (caption : String) : FS × Registry × Except PyErr Unit :=
  match get_info_by_id reg image_id with
  | none => (fs, reg, .error .valueError)
  | some image_info =>
    let caption_file_path := imageDir base_dir ++ [image_info.group_name, ⟨image_id, ".txt"⟩]
    match fs.openWrite caption_file_path caption with
    | .error e => (fs, reg, .error e)
    | .ok fs1 =>
      (fs1, reg.insert image_id { image_info with caption_extension := some ".txt" }, .ok ())

/-- `DatasetManager.copy_caption_file` (line 182).  Note the destination file
name is built with a literal `.txt` suffix (line 197) while the recorded
caption extension is the source file's suffix (line 199). -/
def copy_caption_file (fs : FS) (reg : Registry) (base_dir : FsPath)
    (image_id : String) (source_file_path : FsPath) : FS × Registry × Except PyErr Unit :=
  if !(fs.pathExists source_file_path) then (fs, reg, .error .fileNotFoundError) else
  match get_info_by_id reg image_id with
  | none => (fs, reg, .error .valueError)
  | some image_info =>
    let caption_file_path := imageDir base_dir ++ [image_info.group_name, ⟨image_id, ".txt"⟩]
    match fs.copyFile source_file_path caption_file_path with
    | .error e => (fs, reg, .error e)
    | .ok fs1 =>
      (fs1,
       reg.insert image_id
         { image_info with caption_extension := some (FsPath.suffix source_file_path) },
       .ok ())

/-- `DatasetManager.get_all_images` (line 202). -/
def get_all_images (reg : Registry) : List String := reg.keys

/-- `DatasetManager.get_thumbnail_path_by_id` (line 206): builds the
thumbnail path and checks the filesystem, without consulting the registry. -/
def get_thumbnail_path_by_id (fs : FS) (base_dir : FsPath)
    (image_id : String) : Option FsPath :=
  let thumbnail_path := thumbnailDir base_dir ++ [⟨image_id, ".jpg"⟩]
  if fs.pathExists thumbnail_path then some thumbnail_path else none

/-- `DatasetManager.get_image_path` (line 216). -/
def get_image_path (reg : Registry) (base_dir : FsPath) (image_id : String) : Option FsPath :=
  (get_info_by_id reg image_id).map (fun info => info.get_image_path (imageDir base_dir))

/-- `DatasetManager.get_caption_path` (line 222). -/
def get_caption_path (reg : Registry) (base_dir : FsPath) (image_id : String) : Option FsPath :=
  match get_info_by_id reg image_id with
  | some info => info.get_caption_path (imageDir base_dir)
  | none => none

/-- `DatasetManager.get_relative_thumbnail_path` (line 228). -/
def get_relative_thumbnail_path (reg : Registry) (base_dir : FsPath)
    (image_id : String) : Option FsPath :=
  (get_info_by_id reg image_id).map
    (fun info => info.get_relative_thumbnail_path (thumbnailDir base_dir))

/-- `DatasetManager.get_containing_folder` (line 234). -/
def get_containing_folder (reg : Registry) (base_dir : FsPath)
    (image_id : String) : Option FsPath :=
  (get_info_by_id reg image_id).map
    (fun info => info.get_containing_folder (imageDir base_dir))

/-- Well-formedness of a filesystem state: no duplicate file entries, no
duplicate directory entries, and no path that is both a file and a directory. -/
def FS.WF (fs : FS) : Prop :=
  (fs.files.map (fun e => e.1)).Nodup ∧ fs.dirs.Nodup ∧
    ∀ p ∈ fs.files.map (fun e => e.1), p ∉ fs.dirs

/-! ### Path lemmas -/

theorem FsPath.suffix_concat (p : FsPath) (n : FileName) :
    FsPath.suffix (p ++ [n]) = n.ext := by
  simp [FsPath.suffix]

theorem FsPath.stem_concat (p : FsPath) (n : FileName) :
    FsPath.stem (p ++ [n]) = n.stem := by
  simp [FsPath.stem]

theorem FsPath.lastName_concat (p : FsPath) (n : FileName) :
    FsPath.lastName (p ++ [n]) = n := by
  simp [FsPath.lastName]

theorem FsPath.parent_concat (p : FsPath) (n : FileName) :
    FsPath.parent (p ++ [n]) = p := by
  simp [FsPath.parent]

theorem FsPath.eq_parent_concat (p : FsPath) (h : p ≠ []) :
    p = FsPath.parent p ++ [⟨FsPath.stem p, FsPath.suffix p⟩] := by
  obtain ⟨q, n, rfl⟩ : ∃ q n, p = q ++ [n] := by
    rcases List.eq_nil_or_concat p with h' | ⟨q, n, hqn⟩
    · exact absurd h' h
    · exact ⟨q, n, by simpa [List.concat_eq_append] using hqn⟩
  simp [FsPath.parent, FsPath.stem, FsPath.suffix]

/-! ### Filesystem lemmas -/

theorem FS.fileContent_writeFile_self (fs : FS) (p : FsPath) (c : String) :
    (fs.writeFile p c).fileContent p = some c := by
  simp [FS.writeFile, FS.fileContent]

theorem List.find?_filter_ne {α : Type _} [DecidableEq α] {β : Type _}
    (l : List (α × β)) (p q : α) (h : q ≠ p) :
    List.find? (fun e => decide (e.1 = q)) (l.filter (fun e => decide (e.1 ≠ p)))
      = List.find? (fun e => decide (e.1 = q)) l := by
  induction l with
  | nil => rfl
  | cons e rest ih =>
    by_cases hp : e.1 = p
    · have hq : ¬(e.1 = q) := by rw [hp]; exact Ne.symm h
      rw [List.filter_cons_of_neg (by simp [hp]),
        List.find?_cons_of_neg _ (by simp [hq]), ih]
    · rw [List.filter_cons_of_pos (by simp [hp])]
      by_cases hq : e.1 = q
      · rw [List.find?_cons_of_pos _ (by simp [hq]), List.find?_cons_of_pos _ (by simp [hq])]
      · rw [List.find?_cons_of_neg _ (by simp [hq]), List.find?_cons_of_neg _ (by simp [hq]), ih]

theorem FS.fileContent_writeFile_ne (fs : FS) (p q : FsPath) (c : String)
    (h : q ≠ p) : (fs.writeFile p c).fileContent q = fs.fileContent q := by
  simp only [FS.writeFile, FS.fileContent]
  rw [List.find?_cons_of_neg _ (by simp [Ne.symm h]), List.find?_filter_ne fs.files p q h]

theorem FS.dirs_writeFile (fs : FS) (p : FsPath) (c : String) :
    (fs.writeFile p c).dirs = fs.dirs := rfl

theorem FS.isDir_writeFile (fs : FS) (p q : FsPath) (c : String) :
    (fs.writeFile p c).isDir q = fs.isDir q := rfl

theorem FS.openWrite_ok (fs fs' : FS) (p : FsPath) (c : String)
    (h : fs.openWrite p c = .ok fs') :
    fs' = fs.writeFile p c ∧ fs.isDir (FsPath.parent p) = true := by
  unfold FS.openWrite at h
  split at h
  · exact ⟨by cases h; rfl, by assumption⟩
  · cases h

theorem FS.copyFile_ok (fs fs' : FS) (src dst : FsPath)
    (h : fs.copyFile src dst = .ok fs') :
    ∃ c, fs.fileContent src = some c ∧ fs' = fs.writeFile dst c ∧
      fs.isDir (FsPath.parent dst) = true := by
  unfold FS.copyFile at h
  split at h
  · next c hc =>
    obtain ⟨h1, h2⟩ := FS.openWrite_ok fs fs' dst c h
    exact ⟨c, hc, h1, h2⟩
  · split at h <;> cases h

theorem FS.mkdir_p_files (fs fs' : FS) (p : FsPath)
    (h : fs.mkdir_p p = .ok fs') : fs'.files = fs.files := by
  unfold FS.mkdir_p at h
  split at h
  · cases h; rfl
  · split at h
    · cases h
    · cases h; rfl

theorem FS.fileContent_mkdir_p (fs fs' : FS) (p q : FsPath)
    (h : fs.mkdir_p p = .ok fs') : fs'.fileContent q = fs.fileContent q := by
  simp [FS.fileContent, FS.mkdir_p_files fs fs' p h]

theorem FS.isFile_mkdir_p (fs fs' : FS) (p q : FsPath)
    (h : fs.mkdir_p p = .ok fs') : fs'.isFile q = fs.isFile q := by
  simp [FS.isFile, FS.fileContent_mkdir_p fs fs' p q h]

theorem FS.mkdir_p_isDir_self (fs fs' : FS) (p : FsPath) (hp : p ≠ [])
    (h : fs.mkdir_p p = .ok fs') : fs'.isDir p = true := by
  unfold FS.mkdir_p at h
  split at h
  · next hdir => cases h; exact hdir
  · next hdir =>
    split at h
    · cases h
    · cases h
      have hlen : 0 < p.length := List.length_pos.mpr hp
      have hmem : p ∉ fs.dirs := by simpa [FS.isDir] using hdir
      simp only [FS.isDir, decide_eq_true_eq, List.mem_append, List.mem_filter,
        List.mem_map, List.mem_range]
      refine Or.inr ⟨⟨p.length - 1, ?_, ?_⟩, by simpa using hmem⟩
      · omega
      · have hfix : p.length - 1 + 1 = p.length := by omega
        rw [hfix, List.take_length]

theorem FS.mkdir_p_isDir_mono (fs fs' : FS) (p q : FsPath)
    (hq : fs.isDir q = true) (h : fs.mkdir_p p = .ok fs') : fs'.isDir q = true := by
  unfold FS.mkdir_p at h
  split at h
  · cases h; assumption
  · split at h
    · cases h
    · cases h
      simp only [FS.isDir, decide_eq_true_eq, List.mem_append]
      exact Or.inl (by simpa [FS.isDir] using hq)

/-! ### Registry lemmas -/

theorem Registry.get?_map_replace (reg : Registry) (k : String) (v : ImageInfo)
    (h : (reg.find? (fun e => decide (e.1 = k))).isSome = true) :
    Registry.get? (reg.map (fun e => if e.1 = k then (k, v) else e)) k = some v := by
  induction reg with
  | nil => simp at h
  | cons e rest ih =>
    by_cases he : e.1 = k
    · simp only [List.map_cons, if_pos he]
      unfold Registry.get?
      rw [List.find?_cons_of_pos _ (by simp)]
      rfl
    · simp only [List.map_cons, if_neg he]
      unfold Registry.get?
      rw [List.find?_cons_of_neg _ (by simp [he])]
      rw [List.find?_cons_of_neg _ (by simp [he])] at h
      exact ih h

theorem Registry.get?_append_new (reg : Registry) (k : String) (v : ImageInfo)
    (h : reg.find? (fun e => decide (e.1 = k)) = none) :
    Registry.get? (reg ++ [(k, v)]) k = some v := by
  induction reg with
  | nil =>
    unfold Registry.get?
    rw [List.nil_append, List.find?_cons_of_pos _ (by simp)]
    rfl
  | cons e rest ih =>
    have he : ¬(e.1 = k) := by
      intro he
      rw [List.find?_cons_of_pos _ (by simp [he])] at h
      cases h
    rw [List.find?_cons_of_neg _ (by simp [he])] at h
    unfold Registry.get?
    rw [List.cons_append, List.find?_cons_of_neg _ (by simp [he])]
    exact ih h

theorem Registry.get?_insert_self (reg : Registry) (k : String) (v : ImageInfo) :
    (reg.insert k v).get? k = some v := by
  unfold Registry.insert
  by_cases hfind : (reg.find? (fun e => decide (e.1 = k))).isSome = true
  · rw [if_pos hfind]
    exact Registry.get?_map_replace reg k v hfind
  · rw [if_neg hfind]
    have hnone : reg.find? (fun e => decide (e.1 = k)) = none :=
      Option.not_isSome_iff_eq_none.mp (by simpa using hfind)
    exact Registry.get?_append_new reg k v hnone

theorem Registry.get?_map_replace_ne (reg : Registry) (k k' : String) (v : ImageInfo)
    (h : k' ≠ k) :
    Registry.get? (reg.map (fun e => if e.1 = k then (k, v) else e)) k'
      = reg.get? k' := by
  induction reg with
  | nil => rfl
  | cons e rest ih =>
    by_cases he : e.1 = k
    · have hek' : ¬(e.1 = k') := by rw [he]; exact Ne.symm h
      simp only [List.map_cons, if_pos he]
      unfold Registry.get?
      rw [List.find?_cons_of_neg _ (by simp [Ne.symm h]),
        List.find?_cons_of_neg _ (by simp [hek'])]
      exact ih
    · simp only [List.map_cons, if_neg he]
      by_cases he' : e.1 = k'
      · unfold Registry.get?
        rw [List.find?_cons_of_pos _ (by simp [he']), List.find?_cons_of_pos _ (by simp [he'])]
      · unfold Registry.get?
        rw [List.find?_cons_of_neg _ (by simp [he']), List.find?_cons_of_neg _ (by simp [he'])]
        exact ih

theorem Registry.get?_append_single_ne (reg : Registry) (k k' : String)
    (v : ImageInfo) (h : k' ≠ k) :
    Registry.get? (reg ++ [(k, v)]) k' = reg.get? k' := by
  induction reg with
  | nil =>
    unfold Registry.get?
    rw [List.nil_append, List.find?_cons_of_neg _ (by simp [Ne.symm h])]
  | cons e rest ih =>
    by_cases he : e.1 = k'
    · unfold Registry.get?
      rw [List.cons_append, List.find?_cons_of_pos _ (by simp [he]),
        List.find?_cons_of_pos _ (by simp [he])]
    · unfold Registry.get?
      rw [List.cons_append, List.find?_cons_of_neg _ (by simp [he]),
        List.find?_cons_of_neg _ (by simp [he])]
      exact ih

theorem Registry.get?_insert_ne (reg : Registry) (k k' : String) (v : ImageInfo)
    (h : k' ≠ k) : (reg.insert k v).get? k' = reg.get? k' := by
  unfold Registry.insert
  by_cases hfind : (reg.find? (fun e => decide (e.1 = k))).isSome = true
  · rw [if_pos hfind]
    exact Registry.get?_map_replace_ne reg k k' v h
  · rw [if_neg hfind]
    exact Registry.get?_append_single_ne reg k k' v h

theorem Registry.get?_eq_none_iff_find? (reg : Registry) (k : String) :
    reg.get? k = none ↔ reg.find? (fun e => decide (e.1 = k)) = none := by
  unfold Registry.get?
  cases hf : reg.find? (fun e => decide (e.1 = k)) <;> simp

theorem Registry.keys_insert_mem (reg : Registry) (k : String) (v w : ImageInfo)
    (h : reg.get? k = some w) : (reg.insert k v).keys = reg.keys := by
  unfold Registry.insert
  have hfind : (reg.find? (fun e => decide (e.1 = k))).isSome = true := by
    unfold Registry.get? at h
    cases hf : reg.find? (fun e => decide (e.1 = k)) with
    | none => rw [hf] at h; cases h
    | some e => rfl
  rw [if_pos hfind]
  unfold Registry.keys
  rw [List.map_map]
  apply List.map_congr_left
  intro e _
  by_cases he : e.1 = k
  · simp [he]
  · simp [he]

theorem Registry.keys_insert_new (reg : Registry) (k : String) (v : ImageInfo)
    (h : reg.get? k = none) : (reg.insert k v).keys = reg.keys ++ [k] := by
  unfold Registry.insert
  have hfind : reg.find? (fun e => decide (e.1 = k)) = none :=
    (Registry.get?_eq_none_iff_find? reg k).mp h
  rw [hfind]
  simp [Registry.keys]

/-! ### Children, last-name and lookup helper lemmas -/

theorem FsPath.lastName_eq (q : FsPath) :
    FsPath.lastName q = ⟨FsPath.stem q, FsPath.suffix q⟩ := by
  unfold FsPath.lastName FsPath.stem FsPath.suffix
  cases q.getLast? <;> rfl

theorem FS.mem_childrenOf (fs : FS) (p q : FsPath) :
    q ∈ fs.childrenOf p ↔
      (q ∈ fs.dirs ∨ q ∈ fs.files.map (fun e => e.1)) ∧
        q.length = p.length + 1 ∧ q.dropLast = p := by
  unfold FS.childrenOf
  simp [List.mem_filter, or_and_right]

theorem FsPath.eq_of_dropLast_length (p q : FsPath)
    (hd : q.dropLast = p) (hl : q.length = p.length + 1) :
    q = p ++ [FsPath.lastName q] := by
  rcases List.eq_nil_or_concat q with h' | ⟨q', n, hqn⟩
  · subst h'; simp at hl
  · have hq : q = q' ++ [n] := by simpa [List.concat_eq_append] using hqn
    subst hq
    rw [List.dropLast_concat] at hd
    rw [FsPath.lastName_concat, hd]

theorem FS.childrenOf_decomp (fs : FS) (p q : FsPath) (h : q ∈ fs.childrenOf p) :
    q = p ++ [FsPath.lastName q] := by
  obtain ⟨-, hl, hd⟩ := (fs.mem_childrenOf p q).mp h
  exact FsPath.eq_of_dropLast_length p q hd hl

theorem FS.childrenOf_nodup (fs : FS) (hwf : fs.WF) (p : FsPath) :
    (fs.childrenOf p).Nodup := by
  obtain ⟨h1, h2, h3⟩ := hwf
  exact (List.Nodup.append h2 h1 (fun a ha hb => h3 a hb ha)).filter _

theorem find_file_with_extensions_some (fs : FS) (folder : FsPath) (name : String)
    (extensions : List String) (cf : FsPath)
    (h : find_file_with_extensions fs folder name extensions = some cf) :
    ∃ e ∈ extensions, cf = folder ++ [⟨name, e⟩] ∧ fs.pathExists cf = true := by
  induction extensions with
  | nil => cases h
  | cons ext rest ih =>
    simp only [find_file_with_extensions] at h
    split at h
    · cases h
      next hex => exact ⟨ext, by simp, rfl, hex⟩
    · obtain ⟨e, he, hcf, hex⟩ := ih h
      exact ⟨e, by simp [he], hcf, hex⟩

theorem ne_of_append_length_ne (b : FsPath) (l1 l2 : List FileName)
    (h : l1.length ≠ l2.length) : b ++ l1 ≠ b ++ l2 := by
  intro he
  apply h
  have hlen := congrArg List.length he
  simpa using hlen

/-! ### C10: constructor behaviour over an existing base directory -/

/-- C10: when the base directory already exists at construction, the
constructor takes the scan branch and never calls `setup_folders` (the
filesystem is returned unchanged, so missing `images/` or `thumbnails/`
subfolders are not created), and when the `images/` subdirectory is missing
the startup scan's `iterdir` raises instead of initializing an empty
registry. -/
theorem claim_C10_init_no_setup (fs : FS) (base : FsPath)
    (hbase : fs.pathExists base = true)
    (hmiss : fs.isDir (imageDir base) = false) :
    (dataset_manager_init fs base).1 = fs ∧
    ∃ e, (dataset_manager_init fs base).2 = .error e := by
  unfold dataset_manager_init
  rw [if_pos hbase]
  refine ⟨rfl, ?_⟩
  by_cases hf : fs.isFile (imageDir base) = true
  · exact ⟨.notADirectoryError, by simp [load_existing_images, FS.iterdir, hmiss, hf]⟩
  · exact ⟨.fileNotFoundError, by
      simp only [Bool.not_eq_true] at hf
      simp [load_existing_images, FS.iterdir, hmiss, hf]⟩

def c10fs : FS := ⟨[], [[⟨"store", ""⟩]]⟩

theorem claim_C10_init_no_setup_witness :
    (dataset_manager_init c10fs [⟨"store", ""⟩]).1 = c10fs ∧
    ∃ e, (dataset_manager_init c10fs [⟨"store", ""⟩]).2 = .error e :=
  claim_C10_init_no_setup c10fs [⟨"store", ""⟩] (by decide) (by decide)

/-! ### C7: unknown identifiers -/

/-- C7: with an identifier absent from the registry, the query-style lookups
(`get_image_path`, `get_caption_path`, `get_containing_folder`,
`get_info_by_id`, `get_relative_thumbnail_path`) return `none` without
raising, while the command-style operations `set_caption` and
`copy_caption_file` raise (`ValueError`, the NotFound failure for unknown
ids); `add_image` raises `FileNotFoundError` when the source path does not
exist. -/
theorem claim_C7_unknown_id (fs : FS) (reg : Registry) (base : FsPath)
    (id : String) (txt : String) (src src2 : FsPath) (idp : String)
    (mc : Bool) (ts : String → Option String)
    (h : reg.get? id = none) :
    get_image_path reg base id = none ∧
    get_caption_path reg base id = none ∧
    get_containing_folder reg base id = none ∧
    get_info_by_id reg id = none ∧
    get_relative_thumbnail_path reg base id = none ∧
    set_caption fs reg base id txt = (fs, reg, .error .valueError) ∧
    (fs.pathExists src = true →
      copy_caption_file fs reg base id src = (fs, reg, .error .valueError)) ∧
    (fs.pathExists src2 = false →
      add_image fs reg base src2 idp mc ts = (fs, reg, .error .fileNotFoundError)) := by
  refine ⟨?_, ?_, ?_, ?_, ?_, ?_, ?_, ?_⟩
  · simp [get_image_path, get_info_by_id, h]
  · simp [get_caption_path, get_info_by_id, h]
  · simp [get_containing_folder, get_info_by_id, h]
  · simp [get_info_by_id, h]
  · simp [get_relative_thumbnail_path, get_info_by_id, h]
  · simp [set_caption, get_info_by_id, h]
  · intro hsrc
    simp [copy_caption_file, hsrc, get_info_by_id, h]
  · intro hsrc
    simp [add_image, hsrc]

def c7fs : FS := ⟨[], [[⟨"store", ""⟩]]⟩

theorem claim_C7_unknown_id_witness :
    get_image_path [] [⟨"store", ""⟩] "nope" = none ∧
    get_caption_path [] [⟨"store", ""⟩] "nope" = none ∧
    get_containing_folder [] [⟨"store", ""⟩] "nope" = none ∧
    get_info_by_id [] "nope" = none ∧
    get_relative_thumbnail_path [] [⟨"store", ""⟩] "nope" = none ∧
    set_caption c7fs [] [⟨"store", ""⟩] "nope" "cap" = (c7fs, [], .error .valueError) ∧
    (c7fs.pathExists [⟨"store", ""⟩] = true →
      copy_caption_file c7fs [] [⟨"store", ""⟩] "nope" [⟨"store", ""⟩]
        = (c7fs, [], .error .valueError)) ∧
    (c7fs.pathExists [⟨"gone", ".png"⟩] = false →
      add_image c7fs [] [⟨"store", ""⟩] [⟨"gone", ".png"⟩] "fresh" false (fun _ => none)
        = (c7fs, [], .error .fileNotFoundError)) :=
  claim_C7_unknown_id c7fs [] [⟨"store", ""⟩] "nope" "cap" [⟨"store", ""⟩]
    [⟨"gone", ".png"⟩] "fresh" false (fun _ => none) (by decide)

/-! ### C4: thumbnail lookups -/

def c4base : FsPath := [⟨"store", ""⟩]

def c4reg : Registry := [("a", ⟨"a", ⟨"g", ""⟩, ".png", ".jpg", none⟩)]

def c4fs : FS :=
  ⟨[([⟨"store", ""⟩, ⟨"thumbnails", ""⟩, ⟨"b", ".jpg"⟩], "THUMB")],
   [[⟨"store", ""⟩], [⟨"store", ""⟩, ⟨"images", ""⟩], [⟨"store", ""⟩, ⟨"thumbnails", ""⟩]]⟩

/-- C4, counterexample: `get_thumbnail_path_by_id` is not a pure function of
registry state returning the path exactly when a record exists.  In a state
whose registry holds a record for "a" but whose thumbnail file was deleted
out-of-band, it returns `none`; and for "b", which has no record at all but
whose thumbnail file sits on disk, it returns the path — it consults the
filesystem and ignores the registry. -/
theorem claim_C4_counterexample :
    (c4reg.get? "a").isSome = true ∧
    get_thumbnail_path_by_id c4fs c4base "a" = none ∧
    c4reg.get? "b" = none ∧
    get_thumbnail_path_by_id c4fs c4base "b"
      = some [⟨"store", ""⟩, ⟨"thumbnails", ""⟩, ⟨"b", ".jpg"⟩] := by
  decide

/-- C4, amended: `get_relative_thumbnail_path` is a pure function of registry
state (its type takes no filesystem argument) returning
`thumbnails/<id><thumbnail extension>` exactly when a record for the
identifier exists; `get_thumbnail_path_by_id` instead ignores the registry and
returns `thumbnails/<id>.jpg` exactly when that path exists on disk,
re-verifying existence on the filesystem. -/
theorem claim_C4_amended (fs : FS) (reg : Registry) (base : FsPath) (id : String) :
    (get_thumbnail_path_by_id fs base id =
      if fs.pathExists (thumbnailDir base ++ [⟨id, ".jpg"⟩]) = true
      then some (thumbnailDir base ++ [⟨id, ".jpg"⟩]) else none) ∧
    (get_relative_thumbnail_path reg base id = none ↔ reg.get? id = none) ∧
    (∀ info, reg.get? id = some info →
      get_relative_thumbnail_path reg base id =
        some (thumbnailDir base ++ [⟨info.image_id, info.thumbnail_extension⟩])) := by
  refine ⟨rfl, ?_, ?_⟩
  · unfold get_relative_thumbnail_path get_info_by_id
    cases hr : reg.get? id <;> simp
  · intro info hr
    simp [get_relative_thumbnail_path, get_info_by_id, hr,
      ImageInfo.get_relative_thumbnail_path]

theorem claim_C4_amended_witness :
    (get_thumbnail_path_by_id c4fs c4base "a" =
      if c4fs.pathExists (thumbnailDir c4base ++ [⟨"a", ".jpg"⟩]) = true
      then some (thumbnailDir c4base ++ [⟨"a", ".jpg"⟩]) else none) ∧
    (get_relative_thumbnail_path c4reg c4base "a" = none ↔ c4reg.get? "a" = none) ∧
    (∀ info, c4reg.get? "a" = some info →
      get_relative_thumbnail_path c4reg c4base "a" =
        some (thumbnailDir c4base ++ [⟨info.image_id, info.thumbnail_extension⟩])) :=
  claim_C4_amended c4fs c4reg c4base "a"

/-! ### C1: copy_caption_file destination versus recorded extension -/

def c1base : FsPath := [⟨"store", ""⟩]

def c1src : FsPath := [⟨"srcdir", ""⟩, ⟨"cap", ".caption"⟩]

def c1reg : Registry := [("img1", ⟨"img1", ⟨"g", ""⟩, ".png", ".jpg", none⟩)]

def c1fs : FS :=
  ⟨[([⟨"store", ""⟩, ⟨"images", ""⟩, ⟨"g", ""⟩, ⟨"img1", ".png"⟩], "IMGBYTES"),
    (c1src, "hello")],
   [[⟨"store", ""⟩], [⟨"store", ""⟩, ⟨"images", ""⟩],
    [⟨"store", ""⟩, ⟨"images", ""⟩, ⟨"g", ""⟩],
    [⟨"store", ""⟩, ⟨"thumbnails", ""⟩], [⟨"srcdir", ""⟩]]⟩

/-- C1: `copy_caption_file` on a registered id and an existing `.caption`
source succeeds, but writes the source content to `images/g/img1.txt` (the
destination file name is hard-coded to `.txt`, dataset_manager.py line 197)
while recording caption extension `.caption` (line 199); the caption path
derived from the record afterwards, `images/g/img1.caption`, does not exist.
This exhibits the divergence between the code and the claimed behaviour
(copy to `<id><source extension>` with the caption file existing at the
derived path). -/
theorem claim_C1_code_bug :
    (copy_caption_file c1fs c1reg c1base "img1" c1src).2.2 = .ok () ∧
    ((copy_caption_file c1fs c1reg c1base "img1" c1src).1).fileContent
      [⟨"store", ""⟩, ⟨"images", ""⟩, ⟨"g", ""⟩, ⟨"img1", ".txt"⟩] = some "hello" ∧
    get_caption_path (copy_caption_file c1fs c1reg c1base "img1" c1src).2.1 c1base "img1"
      = some [⟨"store", ""⟩, ⟨"images", ""⟩, ⟨"g", ""⟩, ⟨"img1", ".caption"⟩] ∧
    ((copy_caption_file c1fs c1reg c1base "img1" c1src).1).pathExists
      [⟨"store", ""⟩, ⟨"images", ""⟩, ⟨"g", ""⟩, ⟨"img1", ".caption"⟩] = false := by
  decide

/-! ### C6: set_caption -/

theorem parent_two_concat (d : FsPath) (a b : FileName) :
    FsPath.parent (d ++ [a, b]) = d ++ [a] := by
  rw [show d ++ [a, b] = (d ++ [a]) ++ [b] by simp, FsPath.parent_concat]

/-- C6: for a registered identifier, `set_caption` writes the caption text
verbatim (the stored content is exactly the given string, with nothing added
or removed, and any previous file at that path is overwritten) to
`images/<group>/<id>.txt`, sets the record's caption extension to `.txt`, and
afterwards `get_caption_path` returns that `.txt` path, whose content equals
the text and whose parent directory equals the image path's parent
directory. -/
theorem claim_C6_set_caption (fs : FS) (reg : Registry) (base : FsPath)
    (id txt : String) (info : ImageInfo)
    (hreg : reg.get? id = some info)
    (hid : info.image_id = id)
    (hdir : fs.isDir (imageDir base ++ [info.group_name]) = true) :
    ∃ fs1,
      set_caption fs reg base id txt =
        (fs1, reg.insert id { info with caption_extension := some ".txt" }, .ok ()) ∧
      fs1 = fs.writeFile (imageDir base ++ [info.group_name, ⟨id, ".txt"⟩]) txt ∧
      get_caption_path (reg.insert id { info with caption_extension := some ".txt" }) base id
        = some (imageDir base ++ [info.group_name, ⟨id, ".txt"⟩]) ∧
      fs1.fileContent (imageDir base ++ [info.group_name, ⟨id, ".txt"⟩]) = some txt ∧
      (∃ ip,
        get_image_path (reg.insert id { info with caption_extension := some ".txt" }) base id
          = some ip ∧
        FsPath.parent (imageDir base ++ [info.group_name, ⟨id, ".txt"⟩]) = FsPath.parent ip) := by
  have hpar : FsPath.parent (imageDir base ++ [info.group_name, ⟨id, ".txt"⟩])
      = imageDir base ++ [info.group_name] := parent_two_concat _ _ _
  refine ⟨fs.writeFile (imageDir base ++ [info.group_name, ⟨id, ".txt"⟩]) txt, ?_, rfl, ?_, ?_, ?_⟩
  · simp only [set_caption, get_info_by_id, hreg, FS.openWrite, hpar, hdir, if_true]
  · simp [get_caption_path, get_info_by_id, Registry.get?_insert_self,
      ImageInfo.get_caption_path, hid]
  · exact fs.fileContent_writeFile_self _ txt
  · refine ⟨imageDir base ++ [info.group_name, ⟨id, info.image_extension⟩], ?_, ?_⟩
    · simp [get_image_path, get_info_by_id, Registry.get?_insert_self,
        ImageInfo.get_image_path, hid]
    · rw [hpar, parent_two_concat]

def c6base : FsPath := [⟨"store", ""⟩]

def c6reg : Registry := [("img1", ⟨"img1", ⟨"g", ""⟩, ".png", ".jpg", none⟩)]

def c6fs : FS :=
  ⟨[([⟨"store", ""⟩, ⟨"images", ""⟩, ⟨"g", ""⟩, ⟨"img1", ".png"⟩], "IMGBYTES")],
   [[⟨"store", ""⟩], [⟨"store", ""⟩, ⟨"images", ""⟩],
    [⟨"store", ""⟩, ⟨"images", ""⟩, ⟨"g", ""⟩],
    [⟨"store", ""⟩, ⟨"thumbnails", ""⟩]]⟩

theorem claim_C6_set_caption_witness :
    ∃ fs1,
      set_caption c6fs c6reg c6base "img1" "hello" =
        (fs1,
         c6reg.insert "img1"
           { (⟨"img1", ⟨"g", ""⟩, ".png", ".jpg", none⟩ : ImageInfo) with
             caption_extension := some ".txt" }, .ok ()) ∧
      fs1 = c6fs.writeFile
        (imageDir c6base ++ [⟨"g", ""⟩, ⟨"img1", ".txt"⟩]) "hello" ∧
      get_caption_path
          (c6reg.insert "img1"
            { (⟨"img1", ⟨"g", ""⟩, ".png", ".jpg", none⟩ : ImageInfo) with
              caption_extension := some ".txt" }) c6base "img1"
        = some (imageDir c6base ++ [⟨"g", ""⟩, ⟨"img1", ".txt"⟩]) ∧
      fs1.fileContent (imageDir c6base ++ [⟨"g", ""⟩, ⟨"img1", ".txt"⟩]) = some "hello" ∧
      (∃ ip,
        get_image_path
            (c6reg.insert "img1"
              { (⟨"img1", ⟨"g", ""⟩, ".png", ".jpg", none⟩ : ImageInfo) with
                caption_extension := some ".txt" }) c6base "img1"
          = some ip ∧
        FsPath.parent (imageDir c6base ++ [⟨"g", ""⟩, ⟨"img1", ".txt"⟩]) = FsPath.parent ip) :=
  claim_C6_set_caption c6fs c6reg c6base "img1" "hello"
    ⟨"img1", ⟨"g", ""⟩, ".png", ".jpg", none⟩ (by decide) rfl (by decide)

/-! ### C8: no rollback, registry untouched on failure -/

/-- C8: when `add_image` fails at the thumbnail step (the PIL oracle rejects
the copied bytes) after the image copy succeeded, the registry is returned
unchanged — the record is only inserted after the copy, the optional caption
copy and the thumbnail write have all completed — while the already-copied
image file remains on disk (no rollback of filesystem writes). -/
theorem claim_C8_no_rollback (fs : FS) (reg : Registry) (base : FsPath)
    (src : FsPath) (id : String) (ts : String → Option String) (c : String)
    (hc : fs.fileContent src = some c)
    (hnf : fs.isFile (imageDir base ++ [⟨FsPath.stem src, ""⟩]) = false)
    (hts : ts c = none) :
    ∃ fs2,
      add_image fs reg base src id false ts = (fs2, reg, .error .pilError) ∧
      fs2.fileContent
        (imageDir base ++ [⟨FsPath.stem src, ""⟩] ++ [⟨id, FsPath.suffix src⟩]) = some c := by
  have hex : fs.pathExists src = true := by
    simp [FS.pathExists, FS.isFile, hc]
  obtain ⟨fs1, hmk⟩ : ∃ fs1,
      fs.mkdir_p (imageDir base ++ [⟨FsPath.stem src, ""⟩]) = .ok fs1 := by
    unfold FS.mkdir_p
    by_cases hdir : fs.isDir (imageDir base ++ [⟨FsPath.stem src, ""⟩]) = true
    · exact ⟨fs, by rw [if_pos hdir]⟩
    · rw [if_neg hdir, if_neg (by simp [hnf])]
      exact ⟨_, rfl⟩
  have hdir1 : fs1.isDir (imageDir base ++ [⟨FsPath.stem src, ""⟩]) = true :=
    FS.mkdir_p_isDir_self fs fs1 _ (by simp) hmk
  have hc1 : fs1.fileContent src = some c := by
    rw [FS.fileContent_mkdir_p fs fs1 _ src hmk]; exact hc
  have hcopy : fs1.copyFile src
      ((imageDir base ++ [⟨FsPath.stem src, ""⟩]) ++ [⟨id, FsPath.suffix src⟩])
      = .ok (fs1.writeFile
          ((imageDir base ++ [⟨FsPath.stem src, ""⟩]) ++ [⟨id, FsPath.suffix src⟩]) c) := by
    unfold FS.copyFile
    rw [hc1]
    unfold FS.openWrite
    rw [FsPath.parent_concat, hdir1]
    simp
  refine ⟨fs1.writeFile
      ((imageDir base ++ [⟨FsPath.stem src, ""⟩]) ++ [⟨id, FsPath.suffix src⟩]) c, ?_, ?_⟩
  · unfold add_image
    rw [if_neg (by simp [hex])]
    simp only [hmk, hcopy]
    simp [FS.fileContent_writeFile_self, hts]
  · rw [List.append_assoc, ← List.append_assoc]
    exact FS.fileContent_writeFile_self _ _ c

def c8base : FsPath := [⟨"store", ""⟩]

def c8fs : FS :=
  ⟨[([⟨"pics", ""⟩, ⟨"banana", ".png"⟩], "NOTANIMAGE")],
   [[⟨"store", ""⟩], [⟨"store", ""⟩, ⟨"images", ""⟩],
    [⟨"store", ""⟩, ⟨"thumbnails", ""⟩], [⟨"pics", ""⟩]]⟩

theorem claim_C8_no_rollback_witness :
    ∃ fs2,
      add_image c8fs [] c8base [⟨"pics", ""⟩, ⟨"banana", ".png"⟩] "id7" false
          (fun _ => none)
        = (fs2, [], .error .pilError) ∧
      fs2.fileContent
        (imageDir c8base ++ [⟨FsPath.stem [⟨"pics", ""⟩, ⟨"banana", ".png"⟩], ""⟩]
          ++ [⟨"id7", FsPath.suffix [⟨"pics", ""⟩, ⟨"banana", ".png"⟩]⟩]) = some "NOTANIMAGE" :=
  claim_C8_no_rollback c8fs [] c8base [⟨"pics", ""⟩, ⟨"banana", ".png"⟩] "id7"
    (fun _ => none) "NOTANIMAGE" (by decide) (by decide) rfl

/-! ### C3: add_image copies the source verbatim to the derived path -/

/-- C3: whenever `add_image` succeeds, the returned identifier is the
generated one, and the source file's bytes have been copied unchanged to
`images/<source stem>/<identifier><source extension>`; afterwards
`get_image_path` on the new registry resolves to exactly that path, so the
file it denotes is byte-identical to the source. -/
theorem claim_C3_add_image_verbatim (fs : FS) (reg : Registry) (base : FsPath)
    (src : FsPath) (id : String) (mc : Bool) (ts : String → Option String)
    (fs' : FS) (reg' : Registry) (rid : String)
    (h : add_image fs reg base src id mc ts = (fs', reg', .ok rid)) :
    rid = id ∧
    ∃ c, fs.fileContent src = some c ∧
      fs'.fileContent (imageDir base ++ [⟨FsPath.stem src, ""⟩, ⟨id, FsPath.suffix src⟩])
        = some c ∧
      get_image_path reg' base id
        = some (imageDir base ++ [⟨FsPath.stem src, ""⟩, ⟨id, FsPath.suffix src⟩]) := by
  have hflat : (imageDir base ++ [⟨FsPath.stem src, ""⟩]) ++ [⟨id, FsPath.suffix src⟩]
      = imageDir base ++ [⟨FsPath.stem src, ""⟩, ⟨id, FsPath.suffix src⟩] := by
    simp
  simp only [add_image] at h
  by_cases hex : (!(fs.pathExists src)) = true
  · rw [if_pos hex] at h; simp at h
  · rw [if_neg hex] at h
    cases hmk : fs.mkdir_p (imageDir base ++ [⟨FsPath.stem src, ""⟩]) with
    | error e => rw [hmk] at h; simp at h
    | ok fs1 =>
      rw [hmk] at h
      dsimp only at h
      cases hcp : fs1.copyFile src
          (imageDir base ++ [⟨FsPath.stem src, ""⟩] ++ [⟨id, FsPath.suffix src⟩]) with
      | error e => rw [hcp] at h; simp at h
      | ok fs2 =>
        rw [hcp] at h
        dsimp only at h
        obtain ⟨c, hc1, hfs2, -⟩ := FS.copyFile_ok fs1 fs2 _ _ hcp
        have hc : fs.fileContent src = some c := by
          rw [← FS.fileContent_mkdir_p fs fs1 _ src hmk]; exact hc1
        suffices hsuff : ∀ fs3 capext,
            ((if mc = true then
              match find_file_with_extensions fs2 (FsPath.parent src) (FsPath.stem src)
                  captionExtensions with
              | some caption_file_path =>
                match fs2.copyFile caption_file_path
                    (imageDir base ++ [⟨FsPath.stem src, ""⟩]
                      ++ [⟨id, FsPath.suffix caption_file_path⟩]) with
                | .error e => .error e
                | .ok fsx => .ok (fsx, some (FsPath.suffix caption_file_path))
              | none => .ok (fs2, none)
            else .ok (fs2, (none : Option String))) :
              Except PyErr (FS × Option String)) = .ok (fs3, capext) →
            fs3.fileContent (imageDir base ++ [⟨FsPath.stem src, ""⟩]
              ++ [⟨id, FsPath.suffix src⟩]) = some c by
          cases hcap : ((if mc = true then
              match find_file_with_extensions fs2 (FsPath.parent src) (FsPath.stem src)
                  captionExtensions with
              | some caption_file_path =>
                match fs2.copyFile caption_file_path
                    (imageDir base ++ [⟨FsPath.stem src, ""⟩]
                      ++ [⟨id, FsPath.suffix caption_file_path⟩]) with
                | .error e => .error e
                | .ok fsx => .ok (fsx, some (FsPath.suffix caption_file_path))
              | none => .ok (fs2, none)
            else .ok (fs2, (none : Option String))) :
              Except PyErr (FS × Option String)) with
          | error e => rw [hcap] at h; simp at h
          | ok pr =>
            obtain ⟨fs3, capext⟩ := pr
            rw [hcap] at h
            dsimp only at h
            have hdest3 := hsuff fs3 capext hcap
            cases hread : fs3.fileContent
                (imageDir base ++ [⟨FsPath.stem src, ""⟩] ++ [⟨id, FsPath.suffix src⟩]) with
            | none => rw [hread] at h; simp at h
            | some c' =>
              have hc' : c' = c := by
                rw [hread] at hdest3
                injection hdest3
              rw [hread] at h
              dsimp only at h
              cases hts : ts c' with
              | none => rw [hts] at h; simp at h
              | some tc =>
                rw [hts] at h
                dsimp only at h
                cases how : fs3.openWrite (thumbnailDir base ++ [⟨id, ".jpg"⟩]) tc with
                | error e => rw [how] at h; simp at h
                | ok fs4 =>
                  rw [how] at h
                  dsimp only at h
                  simp only [Prod.mk.injEq] at h
                  obtain ⟨hfs4, hreg4, hok⟩ := h
                  have hrid : rid = id := by
                    injection hok with hh
                    exact hh.symm
                  refine ⟨hrid, c, hc, ?_, ?_⟩
                  · have hthumb : fs4 = fs3.writeFile (thumbnailDir base ++ [⟨id, ".jpg"⟩]) tc :=
                      (FS.openWrite_ok fs3 fs4 _ tc how).1
                    have hdt : (imageDir base ++ [⟨FsPath.stem src, ""⟩,
                        ⟨id, FsPath.suffix src⟩] : FsPath)
                        ≠ thumbnailDir base ++ [⟨id, ".jpg"⟩] := by
                      unfold imageDir thumbnailDir
                      intro he
                      have hlen := congrArg List.length he
                      simp at hlen
                    rw [← hfs4, hthumb, FS.fileContent_writeFile_ne _ _ _ _ hdt, ← hflat,
                      hread, hc']
                  · rw [← hreg4]
                    simp [get_image_path, get_info_by_id, Registry.get?_insert_self,
                      ImageInfo.get_image_path]
        intro fs3 capext hcap
        by_cases hmc : mc = true
        · rw [if_pos hmc] at hcap
          cases hff : find_file_with_extensions fs2 (FsPath.parent src) (FsPath.stem src)
              captionExtensions with
          | none =>
            rw [hff] at hcap
            dsimp only at hcap
            cases hcap
            rw [hfs2]
            exact FS.fileContent_writeFile_self _ _ c
          | some cf =>
            rw [hff] at hcap
            dsimp only at hcap
            cases hcc : fs2.copyFile cf
                (imageDir base ++ [⟨FsPath.stem src, ""⟩] ++ [⟨id, FsPath.suffix cf⟩]) with
            | error e => rw [hcc] at hcap; cases hcap
            | ok fsx =>
              rw [hcc] at hcap
              dsimp only at hcap
              cases hcap
              obtain ⟨c2, hc2, hfsx, -⟩ := FS.copyFile_ok fs2 fs3 _ _ hcc
              obtain ⟨ext, hextmem, hcf, -⟩ :=
                find_file_with_extensions_some fs2 (FsPath.parent src) (FsPath.stem src)
                  captionExtensions cf hff
              by_cases hcd : (imageDir base ++ [⟨FsPath.stem src, ""⟩]
                  ++ [⟨id, FsPath.suffix cf⟩] : FsPath)
                  = imageDir base ++ [⟨FsPath.stem src, ""⟩] ++ [⟨id, FsPath.suffix src⟩]
              · have hsuffeq : FsPath.suffix cf = FsPath.suffix src := by
                  have htail := List.append_cancel_left hcd
                  simp at htail
                  exact htail
                have hcfsuffix : FsPath.suffix cf = ext := by
                  rw [hcf, FsPath.suffix_concat]
                have hextne : ext ≠ "" := by
                  intro hnil
                  rw [hnil] at hextmem
                  simp [captionExtensions] at hextmem
                have hsrcne : src ≠ [] := by
                  intro hnil
                  apply hextne
                  rw [← hcfsuffix, hsuffeq, hnil]
                  rfl
                have hcfsrc : cf = src := by
                  rw [hcf]
                  conv_rhs => rw [FsPath.eq_parent_concat src hsrcne]
                  rw [← hcfsuffix, hsuffeq]
                have hc2c : c2 = c := by
                  rw [hcfsrc, hfs2] at hc2
                  revert hc2
                  generalize (imageDir base ++ [⟨FsPath.stem src, ""⟩]
                    ++ [⟨id, FsPath.suffix src⟩] : FsPath) = D
                  intro hc2
                  by_cases hsd : src = D
                  · rw [hsd, FS.fileContent_writeFile_self] at hc2
                    injection hc2 with hh
                    exact hh.symm
                  · rw [FS.fileContent_writeFile_ne _ _ _ _ hsd, hc1] at hc2
                    injection hc2 with hh
                    exact hh.symm
                rw [hfsx, hcd, hc2c]
                exact FS.fileContent_writeFile_self _ _ c
              · rw [hfsx, FS.fileContent_writeFile_ne _ _ _ _ (fun he => hcd he.symm)]
                rw [hfs2]
                exact FS.fileContent_writeFile_self _ _ c
        · rw [if_neg hmc] at hcap
          cases hcap
          rw [hfs2]
          exact FS.fileContent_writeFile_self _ _ c

def c3base : FsPath := [⟨"store", ""⟩]

def c3src : FsPath := [⟨"pics", ""⟩, ⟨"banana", ".png"⟩]

def c3fs : FS :=
  ⟨[(c3src, "BYTES")],
   [[⟨"store", ""⟩], [⟨"store", ""⟩, ⟨"images", ""⟩],
    [⟨"store", ""⟩, ⟨"thumbnails", ""⟩], [⟨"pics", ""⟩]]⟩

def c3ts : String → Option String := fun s => some s

theorem claim_C3_add_image_verbatim_witness :
    "id1" = "id1" ∧
    ∃ c, c3fs.fileContent c3src = some c ∧
      ((add_image c3fs [] c3base c3src "id1" false c3ts).1).fileContent
        (imageDir c3base ++ [⟨FsPath.stem c3src, ""⟩, ⟨"id1", FsPath.suffix c3src⟩])
        = some c ∧
      get_image_path ((add_image c3fs [] c3base c3src "id1" false c3ts).2.1) c3base "id1"
        = some (imageDir c3base ++ [⟨FsPath.stem c3src, ""⟩, ⟨"id1", FsPath.suffix c3src⟩]) :=
  claim_C3_add_image_verbatim c3fs [] c3base c3src "id1" false c3ts
    (add_image c3fs [] c3base c3src "id1" false c3ts).1
    (add_image c3fs [] c3base c3src "id1" false c3ts).2.1 "id1" (by decide)

/-! ### Result shape of add_image (used for the counting and registry claims) -/

theorem add_image_shape (fs : FS) (reg : Registry) (base src : FsPath) (id : String)
    (mc : Bool) (ts : String → Option String) :
    ((add_image fs reg base src id mc ts).2.2 = .ok id ∧
      ∃ capext, (add_image fs reg base src id mc ts).2.1 =
        reg.insert id ⟨id, ⟨FsPath.stem src, ""⟩, FsPath.suffix src, ".jpg", capext⟩) ∨
    ((∃ e, (add_image fs reg base src id mc ts).2.2 = .error e) ∧
      (add_image fs reg base src id mc ts).2.1 = reg) := by
  simp only [add_image]
  by_cases hex : (!(fs.pathExists src)) = true
  · rw [if_pos hex]
    exact Or.inr ⟨⟨_, rfl⟩, rfl⟩
  · rw [if_neg hex]
    cases hmk : fs.mkdir_p (imageDir base ++ [⟨FsPath.stem src, ""⟩]) with
    | error e => exact Or.inr ⟨⟨_, rfl⟩, rfl⟩
    | ok fs1 =>
      dsimp only
      cases hcp : fs1.copyFile src
          (imageDir base ++ [⟨FsPath.stem src, ""⟩] ++ [⟨id, FsPath.suffix src⟩]) with
      | error e => exact Or.inr ⟨⟨_, rfl⟩, rfl⟩
      | ok fs2 =>
        dsimp only
        cases hcap : ((if mc = true then
            match find_file_with_extensions fs2 (FsPath.parent src) (FsPath.stem src)
                captionExtensions with
            | some caption_file_path =>
              match fs2.copyFile caption_file_path
                  (imageDir base ++ [⟨FsPath.stem src, ""⟩]
                    ++ [⟨id, FsPath.suffix caption_file_path⟩]) with
              | .error e => .error e
              | .ok fsx => .ok (fsx, some (FsPath.suffix caption_file_path))
            | none => .ok (fs2, none)
          else .ok (fs2, (none : Option String))) :
            Except PyErr (FS × Option String)) with
        | error e => exact Or.inr ⟨⟨_, rfl⟩, rfl⟩
        | ok pr =>
          obtain ⟨fs3, capext⟩ := pr
          dsimp only
          cases hread : fs3.fileContent
              (imageDir base ++ [⟨FsPath.stem src, ""⟩] ++ [⟨id, FsPath.suffix src⟩]) with
          | none => exact Or.inr ⟨⟨_, rfl⟩, rfl⟩
          | some c =>
            dsimp only
            cases hts2 : ts c with
            | none => exact Or.inr ⟨⟨_, rfl⟩, rfl⟩
            | some tc =>
              dsimp only
              cases how : fs3.openWrite (thumbnailDir base ++ [⟨id, ".jpg"⟩]) tc with
              | error e => exact Or.inr ⟨⟨_, rfl⟩, rfl⟩
              | ok fs4 =>
                dsimp only
                exact Or.inl ⟨rfl, capext, rfl⟩

/-! ### C5: add_images_from_folder counts -/

theorem add_from_entries_ok_length (base : FsPath) (gen : Nat → String)
    (ts : String → Option String) (exts : List String) (inc : Bool) :
    ∀ (entries : List FsPath) (n : Nat) (fs : FS) (reg : Registry)
      (fs' : FS) (reg' : Registry) (ids : List String),
      add_from_entries base gen ts exts inc entries n fs reg = (fs', reg', .ok ids) →
      ids.length = (entries.filter (fun f => has_extension f exts)).length := by
  intro entries
  induction entries with
  | nil =>
    intro n fs reg fs' reg' ids h
    simp only [add_from_entries] at h
    simp only [Prod.mk.injEq] at h
    obtain ⟨-, -, h3⟩ := h
    injection h3 with h4
    rw [← h4]
    rfl
  | cons f rest ih =>
    intro n fs reg fs' reg' ids h
    simp only [add_from_entries] at h
    by_cases hf : has_extension f exts = true
    · rw [if_pos hf] at h
      split at h
      · next fs1 reg1 image_id heq =>
        split at h
        · next fs2 reg2 ids2 heq2 =>
          simp only [Prod.mk.injEq] at h
          obtain ⟨-, -, h3⟩ := h
          injection h3 with h4
          have hrec := ih (n + 1) fs1 reg1 fs2 reg2 ids2 heq2
          rw [← h4]
          simp [List.filter_cons, hf, hrec]
        · next fs2 reg2 e heq2 =>
          simp at h
      · next fs1 reg1 e heq =>
        simp at h
    · rw [if_neg hf] at h
      have hrec := ih n fs reg fs' reg' ids h
      simp [List.filter_cons, hf, hrec]

def c5base : FsPath := [⟨"store", ""⟩]

def c5gen : Nat → String := fun _ => "gid0"

def c5ts : String → Option String := fun _ => some "T"

def c5fs : FS :=
  ⟨[],
   [[⟨"store", ""⟩], [⟨"store", ""⟩, ⟨"images", ""⟩], [⟨"store", ""⟩, ⟨"thumbnails", ""⟩],
    [⟨"f", ""⟩], [⟨"f", ""⟩, ⟨"sub", ".jpg"⟩]]⟩

/-- C5, counterexample: a subdirectory whose name matches the extension
filter is not skipped silently — `add_images_from_folder` over a folder whose
only entry is a subdirectory named `sub.jpg` attempts `add_image` on it and
the call raises (`shutil.copy` of a directory), instead of returning a list
with zero identifiers for the non-matching files. -/
theorem claim_C5_counterexample :
    (add_images_from_folder c5fs [] c5base [⟨"f", ""⟩] c5gen c5ts
        imageExtensions false).2.2
      = .error .isADirectoryError := by
  decide

/-- C5, amended: whenever `add_images_from_folder` completes without raising
(in particular every matching entry was an ingestible regular file), it
returns exactly one identifier per entry whose extension matches the
configured list case-insensitively and zero identifiers for non-matching
entries; non-matching files and subdirectories are skipped silently.  A
matching entry that cannot be ingested (for example a subdirectory whose name
matches the filter) instead makes the call raise. -/
theorem claim_C5_amended (fs : FS) (reg : Registry) (base folder : FsPath)
    (gen : Nat → String) (ts : String → Option String) (exts : List String)
    (fs' : FS) (reg' : Registry) (ids : List String)
    (h : add_images_from_folder fs reg base folder gen ts exts false
      = (fs', reg', .ok ids)) :
    ids.length = ((fs.childrenOf folder).filter (fun f => has_extension f exts)).length := by
  unfold add_images_from_folder at h
  cases hit : fs.iterdir folder with
  | error e => rw [hit] at h; simp at h
  | ok entries =>
    rw [hit] at h
    dsimp only at h
    have hent : entries = fs.childrenOf folder := by
      unfold FS.iterdir at hit
      split at hit
      · injection hit with h5
        exact h5.symm
      · split at hit <;> cases hit
    subst hent
    exact add_from_entries_ok_length base gen ts exts false _ 0 fs reg fs' reg' ids h

def c5wfs : FS :=
  ⟨[([⟨"picsrc", ""⟩, ⟨"a", ".PNG"⟩], "XX"), ([⟨"picsrc", ""⟩, ⟨"b", ".txt"⟩], "YY")],
   [[⟨"store", ""⟩], [⟨"store", ""⟩, ⟨"images", ""⟩], [⟨"store", ""⟩, ⟨"thumbnails", ""⟩],
    [⟨"picsrc", ""⟩], [⟨"picsrc", ""⟩, ⟨"subd", ""⟩]]⟩

theorem claim_C5_amended_witness :
    (["gid0"] : List String).length
      = ((c5wfs.childrenOf [⟨"picsrc", ""⟩]).filter
          (fun f => has_extension f imageExtensions)).length :=
  claim_C5_amended c5wfs [] c5base [⟨"picsrc", ""⟩] c5gen c5ts imageExtensions
    (add_images_from_folder c5wfs [] c5base [⟨"picsrc", ""⟩] c5gen c5ts
        imageExtensions false).1
    (add_images_from_folder c5wfs [] c5base [⟨"picsrc", ""⟩] c5gen c5ts
        imageExtensions false).2.1
    ["gid0"] (by decide)

/-! ### C9: registry keys across operations -/

theorem set_caption_keys (fs : FS) (reg : Registry) (base : FsPath)
    (id txt : String) :
    Registry.keys (set_caption fs reg base id txt).2.1 = reg.keys := by
  unfold set_caption
  cases hr : get_info_by_id reg id with
  | none => rfl
  | some info =>
    dsimp only
    cases hw : fs.openWrite (imageDir base ++ [info.group_name, ⟨id, ".txt"⟩]) txt with
    | error e => rfl
    | ok fs1 =>
      dsimp only
      exact Registry.keys_insert_mem reg id _ info (by simpa [get_info_by_id] using hr)

theorem copy_caption_file_keys (fs : FS) (reg : Registry) (base : FsPath)
    (id : String) (src : FsPath) :
    Registry.keys (copy_caption_file fs reg base id src).2.1 = reg.keys := by
  unfold copy_caption_file
  by_cases hs : (!(fs.pathExists src)) = true
  · rw [if_pos hs]
  · rw [if_neg hs]
    cases hr : get_info_by_id reg id with
    | none => rfl
    | some info =>
      dsimp only
      cases hc : fs.copyFile src (imageDir base ++ [info.group_name, ⟨id, ".txt"⟩]) with
      | error e => rfl
      | ok fs1 =>
        dsimp only
        exact Registry.keys_insert_mem reg id _ info (by simpa [get_info_by_id] using hr)

theorem add_from_entries_keys (base : FsPath) (gen : Nat → String)
    (ts : String → Option String) (exts : List String) (inc : Bool)
    (hinj : Function.Injective gen) :
    ∀ (entries : List FsPath) (n : Nat) (fs : FS) (reg : Registry),
      (∀ m, n ≤ m → reg.get? (gen m) = none) →
      ∃ l, Registry.keys (add_from_entries base gen ts exts inc entries n fs reg).2.1
          = reg.keys ++ l ∧
        (∀ ids, (add_from_entries base gen ts exts inc entries n fs reg).2.2 = .ok ids →
          l = ids) := by
  intro entries
  induction entries with
  | nil =>
    intro n fs reg hfresh
    refine ⟨[], by simp [add_from_entries], ?_⟩
    intro ids hids
    injection (show Except.ok ([] : List String) = Except.ok ids from hids)
  | cons f rest ih =>
    intro n fs reg hfresh
    simp only [add_from_entries]
    by_cases hf : has_extension f exts = true
    · rw [if_pos hf]
      obtain ⟨fs1, reg1, res, hA⟩ :
          ∃ fs1 reg1 res, add_image fs reg base f (gen n) inc ts = (fs1, reg1, res) :=
        ⟨_, _, _, rfl⟩
      rw [hA]
      cases res with
      | ok image_id =>
        dsimp only
        rcases add_image_shape fs reg base f (gen n) inc ts with
          ⟨hok, capext, hreg1⟩ | ⟨⟨e, herr⟩, -⟩
        · rw [hA] at hok hreg1
          have hid : image_id = gen n := by
            injection (show Except.ok image_id = Except.ok (gen n) from hok)
          have hreg1' : reg1 = reg.insert (gen n)
              ⟨gen n, ⟨FsPath.stem f, ""⟩, FsPath.suffix f, ".jpg", capext⟩ := hreg1
          have hfresh0 : reg.get? (gen n) = none := hfresh n (le_refl n)
          have hkeys1 : reg1.keys = reg.keys ++ [gen n] := by
            rw [hreg1']
            exact Registry.keys_insert_new reg (gen n) _ hfresh0
          have hfresh1 : ∀ m, n + 1 ≤ m → reg1.get? (gen m) = none := by
            intro m hm
            rw [hreg1', Registry.get?_insert_ne _ _ _ _ (fun he => by
              have := hinj he
              omega)]
            exact hfresh m (by omega)
          obtain ⟨l, hl, himp⟩ := ih (n + 1) fs1 reg1 hfresh1
          obtain ⟨fs2, reg2, res2, hB⟩ :
              ∃ fs2 reg2 res2,
                add_from_entries base gen ts exts inc rest (n + 1) fs1 reg1
                  = (fs2, reg2, res2) :=
            ⟨_, _, _, rfl⟩
          rw [hB] at hl himp ⊢
          cases res2 with
          | ok ids2 =>
            dsimp only at hl himp ⊢
            refine ⟨image_id :: ids2, ?_, ?_⟩
            · rw [hl, himp ids2 rfl, hkeys1, hid]
              simp
            · intro ids hids
              injection (show Except.ok (image_id :: ids2) = Except.ok ids from hids)
          | error e =>
            dsimp only at hl himp ⊢
            refine ⟨gen n :: l, ?_, ?_⟩
            · rw [hl, hkeys1]
              simp
            · intro ids hids
              exact absurd (show Except.error e = Except.ok ids from hids) (by simp)
        · rw [hA] at herr
          exact absurd (show Except.ok image_id = Except.error e from herr) (by simp)
      | error e =>
        dsimp only
        rcases add_image_shape fs reg base f (gen n) inc ts with
          ⟨hok, -⟩ | ⟨-, hregeq⟩
        · rw [hA] at hok
          exact absurd (show Except.error e = Except.ok (gen n) from hok) (by simp)
        · rw [hA] at hregeq
          refine ⟨[], ?_, ?_⟩
          · rw [show reg1 = reg from hregeq]
            simp
          · intro ids hids
            exact absurd (show Except.error e = Except.ok ids from hids) (by simp)
    · rw [if_neg hf]
      exact ih n fs reg hfresh

/-- C9: `get_all_images` lists the registry keys in insertion order, and
across every operation its value evolves as the claim states: the caption
operations never add or remove an entry; a failed `add_image` leaves it
unchanged; a successful `add_image` with a fresh identifier appends exactly
that identifier at the end; a successful `add_images_from_folder` with fresh,
pairwise-distinct generated identifiers appends exactly the returned
identifiers in order (so the length grows by the number of successfully
ingested images); and even a failed `add_images_from_folder` only appends
entries, never removing any. -/
theorem claim_C9_get_all_images :
    (∀ fs reg base id txt,
      get_all_images (set_caption fs reg base id txt).2.1 = get_all_images reg) ∧
    (∀ fs reg base id src,
      get_all_images (copy_caption_file fs reg base id src).2.1 = get_all_images reg) ∧
    (∀ fs reg base src id mc ts e,
      (add_image fs reg base src id mc ts).2.2 = .error e →
      get_all_images (add_image fs reg base src id mc ts).2.1 = get_all_images reg) ∧
    (∀ fs reg base src id mc ts rid,
      reg.get? id = none →
      (add_image fs reg base src id mc ts).2.2 = .ok rid →
      get_all_images (add_image fs reg base src id mc ts).2.1
        = get_all_images reg ++ [id]) ∧
    (∀ fs reg base folder gen ts exts inc fs' reg' ids,
      Function.Injective gen →
      (∀ m, reg.get? (gen m) = none) →
      add_images_from_folder fs reg base folder gen ts exts inc = (fs', reg', .ok ids) →
      get_all_images reg' = get_all_images reg ++ ids) ∧
    (∀ fs reg base folder gen ts exts inc fs' reg' e,
      Function.Injective gen →
      (∀ m, reg.get? (gen m) = none) →
      add_images_from_folder fs reg base folder gen ts exts inc = (fs', reg', .error e) →
      ∃ l, get_all_images reg' = get_all_images reg ++ l) := by
  refine ⟨?_, ?_, ?_, ?_, ?_, ?_⟩
  · intro fs reg base id txt
    exact set_caption_keys fs reg base id txt
  · intro fs reg base id src
    exact copy_caption_file_keys fs reg base id src
  · intro fs reg base src id mc ts e herr
    rcases add_image_shape fs reg base src id mc ts with ⟨hok, -⟩ | ⟨-, hregeq⟩
    · rw [herr] at hok
      exact absurd hok (by simp)
    · rw [hregeq]
  · intro fs reg base src id mc ts rid hfresh hok2
    rcases add_image_shape fs reg base src id mc ts with ⟨hok, capext, hreg⟩ | ⟨⟨e, herr⟩, -⟩
    · unfold get_all_images
      rw [hreg]
      exact Registry.keys_insert_new reg id _ hfresh
    · rw [hok2] at herr
      exact absurd herr (by simp)
  · intro fs reg base folder gen ts exts inc fs' reg' ids hinj hfresh h
    unfold add_images_from_folder at h
    cases hit : fs.iterdir folder with
    | error e => rw [hit] at h; simp at h
    | ok entries =>
      rw [hit] at h
      dsimp only at h
      obtain ⟨l, hl, himp⟩ := add_from_entries_keys base gen ts exts inc hinj entries 0 fs reg
        (fun m _ => hfresh m)
      rw [h] at hl himp
      dsimp only at hl himp
      rw [show get_all_images reg' = reg'.keys from rfl, hl, himp ids rfl]
      rfl
  · intro fs reg base folder gen ts exts inc fs' reg' e hinj hfresh h
    unfold add_images_from_folder at h
    cases hit : fs.iterdir folder with
    | error e2 =>
      rw [hit] at h
      dsimp only at h
      simp only [Prod.mk.injEq] at h
      obtain ⟨-, hreg, -⟩ := h
      exact ⟨[], by rw [← hreg]; simp⟩
    | ok entries =>
      rw [hit] at h
      dsimp only at h
      obtain ⟨l, hl, -⟩ := add_from_entries_keys base gen ts exts inc hinj entries 0 fs reg
        (fun m _ => hfresh m)
      rw [h] at hl
      dsimp only at hl
      exact ⟨l, hl⟩

theorem claim_C9_get_all_images_witness :
    get_all_images (set_caption c6fs c6reg c6base "img1" "hi").2.1
      = get_all_images c6reg :=
  claim_C9_get_all_images.1 c6fs c6reg c6base "img1" "hi"

/-! ### C2: startup scan round-trip -/

/-- A file of a group folder that the startup scan would register under
key `k`. -/
def touchesKey (fs : FS) (k : String) (file : FsPath) : Bool :=
  fs.isFile file && has_extension file imageExtensions && decide (FsPath.stem file = k)

/-- A group folder whose scan inserts key `k`. -/
def groupTouches (fs : FS) (k : String) (folder : FsPath) : Bool :=
  fs.isDir folder && (fs.childrenOf folder).any (fun f => touchesKey fs k f)

theorem pif_get?_no_touch (fs : FS) (folder : FsPath) (reg : Registry)
    (file : FsPath) (k : String) (h : touchesKey fs k file = false) :
    (process_image_file fs folder reg file).get? k = reg.get? k := by
  unfold process_image_file
  by_cases hif : (fs.isFile file && has_extension file imageExtensions) = true
  · rw [if_pos hif]
    have hst : FsPath.stem file ≠ k := by
      unfold touchesKey at h
      rw [hif] at h
      simpa using h
    exact Registry.get?_insert_ne reg (FsPath.stem file) k _ (Ne.symm hst)
  · rw [if_neg hif]

theorem pif_get?_sets (fs : FS) (folder : FsPath) (reg : Registry) (file : FsPath)
    (hif : (fs.isFile file && has_extension file imageExtensions) = true) :
    (process_image_file fs folder reg file).get? (FsPath.stem file)
      = some ⟨FsPath.stem file, FsPath.lastName folder, FsPath.suffix file, ".jpg",
          (find_file_with_extensions fs folder (FsPath.stem file)
            captionExtensions).map FsPath.suffix⟩ := by
  unfold process_image_file
  rw [if_pos hif]
  exact Registry.get?_insert_self _ _ _

theorem foldl_pif_no_touch (fs : FS) (folder : FsPath) (k : String) :
    ∀ (files : List FsPath) (reg : Registry),
      (∀ f ∈ files, touchesKey fs k f = false) →
      (files.foldl (process_image_file fs folder) reg).get? k = reg.get? k := by
  intro files
  induction files with
  | nil => intro reg h; rfl
  | cons f rest ih =>
    intro reg h
    rw [List.foldl_cons, ih _ (fun g hg => h g (by simp [hg]))]
    exact pif_get?_no_touch fs folder reg f k (h f (by simp))

theorem pgf_no_touch (fs : FS) (reg : Registry) (folder : FsPath) (k : String)
    (h : groupTouches fs k folder = false) :
    (process_group_folder fs reg folder).get? k = reg.get? k := by
  unfold process_group_folder
  by_cases hd : fs.isDir folder = true
  · rw [if_pos hd]
    apply foldl_pif_no_touch
    intro f hf
    have hany : (fs.childrenOf folder).any (fun f => touchesKey fs k f) = false := by
      unfold groupTouches at h
      rw [hd] at h
      simpa using h
    have := List.any_eq_false.mp hany f hf
    simpa using this
  · rw [if_neg hd]

theorem foldl_pgf_no_touch (fs : FS) (k : String) :
    ∀ (l : List FsPath) (reg : Registry),
      (∀ g ∈ l, groupTouches fs k g = false) →
      (l.foldl (process_group_folder fs) reg).get? k = reg.get? k := by
  intro l
  induction l with
  | nil => intro reg h; rfl
  | cons g rest ih =>
    intro reg h
    rw [List.foldl_cons, ih _ (fun g' hg' => h g' (by simp [hg']))]
    exact pgf_no_touch fs reg g k (h g (by simp))

/-- A recognized image file of the scan: `folder` is an entry of the image
directory and a directory, `file` an entry of `folder` that is a regular file
with a recognized image extension. -/
def isRecognizedImage (fs : FS) (d folder file : FsPath) : Prop :=
  folder ∈ fs.childrenOf d ∧ fs.isDir folder = true ∧
  file ∈ fs.childrenOf folder ∧ fs.isFile file = true ∧
  has_extension file imageExtensions = true

instance (fs : FS) (d folder file : FsPath) :
    Decidable (isRecognizedImage fs d folder file) := by
  unfold isRecognizedImage
  infer_instance

/-- Distinct recognized image files have distinct stems — the well-formedness
a tree laid out by the store has, since stored file stems are the generated
unique identifiers. -/
def RecognizedStemsInjective (fs : FS) (d : FsPath) : Prop :=
  ∀ g1 ∈ fs.childrenOf d, ∀ f1 ∈ fs.childrenOf g1,
    ∀ g2 ∈ fs.childrenOf d, ∀ f2 ∈ fs.childrenOf g2,
      isRecognizedImage fs d g1 f1 → isRecognizedImage fs d g2 f2 →
      FsPath.stem f1 = FsPath.stem f2 → g1 = g2 ∧ f1 = f2

instance (fs : FS) (d : FsPath) : Decidable (RecognizedStemsInjective fs d) := by
  unfold RecognizedStemsInjective
  infer_instance

instance (fs : FS) : Decidable fs.WF := by
  unfold FS.WF
  infer_instance

/-- C2: over a directory tree previously laid out by the store (recognized
image files have pairwise-distinct stems, since stored stems are the
generated unique identifiers), constructing the store over the existing base
reconstructs, for every recognized image file in a group subfolder, a
registry record keyed by the file's stem whose group is the folder name,
whose image extension is the file's extension, and whose caption extension is
taken from the first existing sibling `<stem><ext>` probing `.txt` before
`.caption`; the record's `get_image_path` resolves to the pre-existing image
file, and its `get_caption_path` resolves to the pre-existing caption file
when one was found (and is absent when none was). -/
theorem claim_C2_reconstruction (fs : FS) (base : FsPath) (folder file : FsPath)
    (hwf : fs.WF)
    (hbase : fs.pathExists base = true)
    (hdir : fs.isDir (imageDir base) = true)
    (hinj : RecognizedStemsInjective fs (imageDir base))
    (hrec : isRecognizedImage fs (imageDir base) folder file) :
    ∃ reg, dataset_manager_init fs base = (fs, .ok reg) ∧
      reg.get? (FsPath.stem file) = some
        ⟨FsPath.stem file, FsPath.lastName folder, FsPath.suffix file, ".jpg",
         (find_file_with_extensions fs folder (FsPath.stem file)
           captionExtensions).map FsPath.suffix⟩ ∧
      ImageInfo.get_image_path
        ⟨FsPath.stem file, FsPath.lastName folder, FsPath.suffix file, ".jpg",
         (find_file_with_extensions fs folder (FsPath.stem file)
           captionExtensions).map FsPath.suffix⟩ (imageDir base) = file ∧
      (∀ cf, find_file_with_extensions fs folder (FsPath.stem file) captionExtensions
          = some cf →
        ImageInfo.get_caption_path
          ⟨FsPath.stem file, FsPath.lastName folder, FsPath.suffix file, ".jpg",
           (find_file_with_extensions fs folder (FsPath.stem file)
             captionExtensions).map FsPath.suffix⟩ (imageDir base) = some cf ∧
        fs.pathExists cf = true) ∧
      (find_file_with_extensions fs folder (FsPath.stem file) captionExtensions = none →
        ImageInfo.get_caption_path
          ⟨FsPath.stem file, FsPath.lastName folder, FsPath.suffix file, ".jpg",
           (find_file_with_extensions fs folder (FsPath.stem file)
             captionExtensions).map FsPath.suffix⟩ (imageDir base) = none) := by
  obtain ⟨hfmem, hfdir, hmem, hfile, hext⟩ := hrec
  have hinit : dataset_manager_init fs base
      = (fs, .ok ((fs.childrenOf (imageDir base)).foldl (process_group_folder fs) [])) := by
    unfold dataset_manager_init
    rw [if_pos hbase]
    simp [load_existing_images, FS.iterdir, hdir]
  refine ⟨_, hinit, ?_, ?_, ?_, ?_⟩
  · -- registry lookup
    obtain ⟨l1, l2, hsplit⟩ := List.append_of_mem hfmem
    have hnodup : (fs.childrenOf (imageDir base)).Nodup :=
      FS.childrenOf_nodup fs hwf (imageDir base)
    rw [hsplit] at hnodup
    have hfolder_notmem : folder ∉ l2 := by
      rw [List.nodup_append] at hnodup
      exact (List.nodup_cons.mp hnodup.2.1).1
    rw [hsplit, List.foldl_append, List.foldl_cons]
    have hl2 : ∀ g ∈ l2, groupTouches fs (FsPath.stem file) g = false := by
      intro g hg
      by_cases hgt : groupTouches fs (FsPath.stem file) g = true
      · exfalso
        unfold groupTouches at hgt
        rw [Bool.and_eq_true] at hgt
        obtain ⟨hgdir, hgany⟩ := hgt
        obtain ⟨f', hf'mem, hf't⟩ := List.any_eq_true.mp hgany
        unfold touchesKey at hf't
        rw [Bool.and_eq_true, Bool.and_eq_true] at hf't
        obtain ⟨⟨hf'file, hf'ext⟩, hf'stem⟩ := hf't
        have hgmem : g ∈ fs.childrenOf (imageDir base) := by
          rw [hsplit]
          simp [hg]
        have hrec1 : isRecognizedImage fs (imageDir base) g f' :=
          ⟨hgmem, hgdir, hf'mem, hf'file, hf'ext⟩
        have hrec2 : isRecognizedImage fs (imageDir base) folder file :=
          ⟨hfmem, hfdir, hmem, hfile, hext⟩
        have heq := hinj g hgmem f' hf'mem folder hfmem file hmem hrec1 hrec2
          (by simpa using hf'stem)
        exact hfolder_notmem (heq.1 ▸ hg)
      · simpa using hgt
    rw [foldl_pgf_no_touch fs (FsPath.stem file) l2 _ hl2]
    unfold process_group_folder
    rw [if_pos hfdir]
    obtain ⟨m1, m2, hsplit2⟩ := List.append_of_mem hmem
    have hnodup2 : (fs.childrenOf folder).Nodup := FS.childrenOf_nodup fs hwf folder
    rw [hsplit2] at hnodup2
    have hfile_notmem : file ∉ m2 := by
      rw [List.nodup_append] at hnodup2
      exact (List.nodup_cons.mp hnodup2.2.1).1
    rw [hsplit2, List.foldl_append, List.foldl_cons]
    have hm2 : ∀ f' ∈ m2, touchesKey fs (FsPath.stem file) f' = false := by
      intro f' hf'
      by_cases hft : touchesKey fs (FsPath.stem file) f' = true
      · exfalso
        unfold touchesKey at hft
        rw [Bool.and_eq_true, Bool.and_eq_true] at hft
        obtain ⟨⟨hf'file, hf'ext⟩, hf'stem⟩ := hft
        have hf'mem : f' ∈ fs.childrenOf folder := by
          rw [hsplit2]
          simp [hf']
        have hrec1 : isRecognizedImage fs (imageDir base) folder f' :=
          ⟨hfmem, hfdir, hf'mem, hf'file, hf'ext⟩
        have hrec2 : isRecognizedImage fs (imageDir base) folder file :=
          ⟨hfmem, hfdir, hmem, hfile, hext⟩
        have heq := hinj folder hfmem f' hf'mem folder hfmem file hmem hrec1 hrec2
          (by simpa using hf'stem)
        exact hfile_notmem (heq.2 ▸ hf')
      · simpa using hft
    rw [foldl_pif_no_touch fs folder (FsPath.stem file) m2 _ hm2]
    exact pif_get?_sets fs folder _ file (by rw [hfile, hext]; rfl)
  · -- image path resolves to the file
    have hfolder_eq : folder = imageDir base ++ [FsPath.lastName folder] :=
      FS.childrenOf_decomp fs (imageDir base) folder hfmem
    have hfile_eq : file = folder ++ [FsPath.lastName file] :=
      FS.childrenOf_decomp fs folder file hmem
    rw [FsPath.lastName_eq file] at hfile_eq
    unfold ImageInfo.get_image_path
    conv_rhs => rw [hfile_eq, hfolder_eq]
    simp
  · intro cf hcf
    obtain ⟨e, hemem, hcfeq, hex2⟩ :=
      find_file_with_extensions_some fs folder (FsPath.stem file) captionExtensions cf hcf
    refine ⟨?_, hex2⟩
    unfold ImageInfo.get_caption_path
    rw [hcf, hcfeq]
    simp only [Option.map_some', FsPath.suffix_concat]
    have hfolder_eq : folder = imageDir base ++ [FsPath.lastName folder] :=
      FS.childrenOf_decomp fs (imageDir base) folder hfmem
    conv_rhs => rw [hfolder_eq]
    simp
  · intro hnone
    unfold ImageInfo.get_caption_path
    rw [hnone]
    simp

def c2base : FsPath := [⟨"store", ""⟩]

def c2folder : FsPath := [⟨"store", ""⟩, ⟨"images", ""⟩, ⟨"banana", ""⟩]

def c2file : FsPath := [⟨"store", ""⟩, ⟨"images", ""⟩, ⟨"banana", ""⟩, ⟨"id1", ".png"⟩]

def c2fs : FS :=
  ⟨[(c2file, "IMG"),
    ([⟨"store", ""⟩, ⟨"images", ""⟩, ⟨"banana", ""⟩, ⟨"id1", ".txt"⟩], "CAP")],
   [[⟨"store", ""⟩], [⟨"store", ""⟩, ⟨"images", ""⟩], c2folder,
    [⟨"store", ""⟩, ⟨"thumbnails", ""⟩]]⟩

theorem claim_C2_reconstruction_witness :
    ∃ reg, dataset_manager_init c2fs c2base = (c2fs, .ok reg) ∧
      reg.get? (FsPath.stem c2file) = some
        ⟨FsPath.stem c2file, FsPath.lastName c2folder, FsPath.suffix c2file, ".jpg",
         (find_file_with_extensions c2fs c2folder (FsPath.stem c2file)
           captionExtensions).map FsPath.suffix⟩ ∧
      ImageInfo.get_image_path
        ⟨FsPath.stem c2file, FsPath.lastName c2folder, FsPath.suffix c2file, ".jpg",
         (find_file_with_extensions c2fs c2folder (FsPath.stem c2file)
           captionExtensions).map FsPath.suffix⟩ (imageDir c2base) = c2file ∧
      (∀ cf, find_file_with_extensions c2fs c2folder (FsPath.stem c2file) captionExtensions
          = some cf →
        ImageInfo.get_caption_path
          ⟨FsPath.stem c2file, FsPath.lastName c2folder, FsPath.suffix c2file, ".jpg",
           (find_file_with_extensions c2fs c2folder (FsPath.stem c2file)
             captionExtensions).map FsPath.suffix⟩ (imageDir c2base) = some cf ∧
        c2fs.pathExists cf = true) ∧
      (find_file_with_extensions c2fs c2folder (FsPath.stem c2file) captionExtensions = none →
        ImageInfo.get_caption_path
          ⟨FsPath.stem c2file, FsPath.lastName c2folder, FsPath.suffix c2file, ".jpg",
           (find_file_with_extensions c2fs c2folder (FsPath.stem c2file)
             captionExtensions).map FsPath.suffix⟩ (imageDir c2base) = none) :=
  claim_C2_reconstruction c2fs c2base c2folder c2file (by decide) (by decide) (by decide)
    (by decide) (by decide)
